import Mathlib

/-!
Verification development for `ltc-delay` (src/ltc-delay.c), a JACK client
that measures audio round-trip delay by emitting LTC timecode, decoding the
looped-back signal and reporting the running average offset.

Shallow embedding notes:
* `jack_default_audio_sample_t` (a 32-bit float) is modelled as `ℚ`.  The
  real-time callback only copies samples (memcpy / memset 0), it performs no
  arithmetic on them, so the carrier type is irrelevant to the properties.
* `monotonic_cnt` is `unsigned long int` (64-bit).  Its value stays far below
  2^64 in any session, so it is modelled as `Nat`.
* `avg_delta` is a C `double` accumulating integer-valued `long int` deltas;
  every accepted delta satisfies `|delta| < j_samplerate` and the running sum
  stays far below 2^53, where double arithmetic on integers is exact, so it
  is modelled as `Int`.
* The ring buffer holds raw bytes; every read/write in the program moves
  whole 4-byte samples, and `jack_ringbuffer_read_space` reports bytes.
  For the callback we model the buffer as a list of samples and keep the
  byte factor `4` (`sizeof (jack_default_audio_sample_t)`) explicit in the
  comparison, mirroring line 64 of the source.  For the producer-side write
  loop (lines 173-190) we model free space at byte granularity, because
  `jack_ringbuffer_write` may write fewer bytes than requested.
-/

/-- `fps` from the source: `static unsigned int fps = 25;` — nothing in the
program ever modifies it (there is no command-line option for it). -/
def fps : Nat := 25

/-- `sizeof (jack_default_audio_sample_t)`: 4 bytes. -/
def sampleBytes : Nat := 4

/-! ## Real-time callback `process` (lines 51-76) -/

/-- State shared with the `process` callback.
`active`: 0 = starting, 1 = running, 2 = shutdown (line 48).
`monotonic_cnt`: line 41.
`rb`: the samples currently readable in the JACK ring buffer.
`decoderFeeds`: the history of `ltc_decoder_write_float (decoder, in,
n_samples, monotonic_cnt)` calls — each entry records the input block and the
`posinfo` (monotonic counter value) passed with it. -/
structure ProcState where
  active : Nat
  monotonic_cnt : Nat
  rb : List ℚ
  decoderFeeds : List (List ℚ × Nat)
  deriving Repr, DecidableEq

/-- `jack_ringbuffer_read_space` in bytes for the callback-side model. -/
def readSpace (rb : List ℚ) : Nat := sampleBytes * rb.length

/-- The `process` callback (lines 51-76).  Returns the successor state and
the output block written to `out`.  Mirrors the source:
* if `active != 1`: `memset (out, 0, ...)` and return (lines 57-60);
* otherwise feed the input block to the decoder with the current
  `monotonic_cnt` (line 62), then if
  `jack_ringbuffer_read_space (j_rb) > sizeof (sample) * n_samples`
  read `n_samples` samples into `out` and advance `monotonic_cnt` by
  `n_samples` (lines 64-66), else `memset (out, 0, ...)` (line 68).
The trailing `pthread_mutex_trylock`/`cond_signal` (lines 71-74) does not
change this state and is not modelled. -/
def process (n : Nat) (input : List ℚ) (s : ProcState) : ProcState × List ℚ :=
  if s.active ≠ 1 then
    (s, List.replicate n 0)
  else
    let s1 : ProcState := { s with decoderFeeds := s.decoderFeeds ++ [(input, s.monotonic_cnt)] }
    if readSpace s.rb > sampleBytes * n then
      ({ s1 with rb := s.rb.drop n, monotonic_cnt := s.monotonic_cnt + n }, s.rb.take n)
    else
      (s1, List.replicate n 0)

/-- Whether the callback's ring-buffer read succeeds (the condition on
line 64 of the source, given that the state is running). -/
def readSucceeds (s : ProcState) (n : Nat) : Prop :=
  s.active = 1 ∧ readSpace s.rb > sampleBytes * n

instance (s : ProcState) (n : Nat) : Decidable (readSucceeds s n) := by
  unfold readSucceeds; infer_instance

/-! ## Session events after `main_loop` has started

Once `main_loop` has set `active = 1` (line 162), the only writes to
`active` anywhere in the program are `handle_signal` (line 256) and
`jack_shutdown` (line 108), both of which set it to 2.  A session step is
either a callback invocation, a SIGINT delivery, or a jackd shutdown
notification. -/

inductive Event where
  | callback (n : Nat) (input : List ℚ)
  | sigint
  | jackShutdown
  deriving Repr, DecidableEq

/-- One session step.  Non-callback events produce no output block. -/
def step (s : ProcState) (e : Event) : ProcState × Option (List ℚ) :=
  match e with
  | Event.callback n input =>
      let r := process n input s
      (r.1, some r.2)
  | Event.sigint => ({ s with active := 2 }, none)
  | Event.jackShutdown => ({ s with active := 2 }, none)

/-- Run a list of session events, collecting the callback output blocks. -/
def run (s : ProcState) : List Event → ProcState × List (List ℚ)
  | [] => (s, [])
  | e :: es =>
      let r := step s e
      let rest := run r.1 es
      (rest.1, (match r.2 with | some o => [o] | none => []) ++ rest.2)

/-! ## Delay estimator (`main_loop`, lines 164-240) -/

/-- `avg_delta`, `avg_count`, `last_signal` from `main_loop`
(lines 164-167). -/
structure EstState where
  avg_delta : Int
  avg_count : Nat
  last_signal : Nat
  deriving Repr, DecidableEq

/-- Processing of one drained decoded frame with offset `delta` at snapshot
time `now` (lines 208-212):
`if (delta > 0 && delta < j_samplerate) { avg_delta += delta; ++avg_count;
last_signal = now; }` — note the strict `delta > 0`. -/
def acceptFrame (sr : Nat) (now : Nat) (delta : Int) (st : EstState) : EstState :=
  if 0 < delta ∧ delta < (sr : Int) then
    { avg_delta := st.avg_delta + delta
      avg_count := st.avg_count + 1
      last_signal := now }
  else
    st

/-- Drain a sequence of decoded frames, each given as a pair of its snapshot
time `now` and its computed `delta`, in arrival order. -/
def acceptSeq (sr : Nat) (fs : List (Nat × Int)) (st : EstState) : EstState :=
  fs.foldl (fun s td => acceptFrame sr td.1 td.2 s) st

/-- The body of the periodic report (lines 231-239), executed once the guard
`now > last_notify_time + notify_dt` holds:
`if (now - last_signal > 3 * j_samplerate) { avg_delta = 0; avg_count = 0; }`
then report `avg_delta / avg_count` if `avg_count > 0`, else the no-signal
line.  The emitted report is `some v` for `printf ("Delay %.0f", v)` with
`v = avg_delta / avg_count` (the value before `%.0f` rounding), and `none`
for `printf (" -- no recent signal")`.  `now - last_signal` is unsigned 64-bit subtraction; in the program
`last_signal` is always a previous value of `now` (initially 0) and
`monotonic_cnt` never decreases, so `now ≥ last_signal` and truncated `Nat`
subtraction agrees with the C computation. -/
def tick (sr : Nat) (now : Nat) (st : EstState) : EstState × Option ℚ :=
  let st' := if now - st.last_signal > 3 * sr then
               { st with avg_delta := 0, avg_count := 0 }
             else st
  (st', if st'.avg_count > 0 then some ((st'.avg_delta : ℚ) / (st'.avg_count : ℚ)) else none)

/-- `notify_dt = j_samplerate / 2` (line 170). -/
def notify_dt (sr : Nat) : Nat := sr / 2

/-- Lines 229-240 in full: run the periodic report only when
`now > last_notify_time + notify_dt`, updating `last_notify_time`.
Returns `(last_notify_time', estimator', emitted report?)`. -/
def notifyStep (sr : Nat) (now : Nat) (lnt : Nat) (st : EstState) :
    Nat × EstState × Option (Option ℚ) :=
  if now > lnt + notify_dt sr then
    let r := tick sr now st
    (now, r.1, some r.2)
  else
    (lnt, st, none)

/-! ## Decode/correlate arithmetic (`main_loop`, lines 197-212) -/

/-- Decoded SMPTE time-of-day as produced by `ltc_frame_to_time`. -/
structure SMPTETime where
  hours : Nat
  mins : Nat
  secs : Nat
  frame : Nat
  deriving Repr, DecidableEq

/-- Line 203: `spos = stime.frame + fps * (stime.hours * 3600 + stime.mins
* 60 + stime.secs)` (exact integer arithmetic, values far below 2^64). -/
def sposFrames (t : SMPTETime) : Nat :=
  t.frame + fps * (t.hours * 3600 + t.mins * 60 + t.secs)

/-- Line 204: `spos *= j_samplerate / (double)fps;` — the frame count is
multiplied by the double `sr / 25.0` and the product stored back into an
`unsigned long int`, truncating toward zero.  Modelled with exact rational
arithmetic plus the final floor.  (When `25 ∣ sr`, `sr / 25.0` is an exact
double, the product is an exact integer below 2^53, and this model matches
the C computation bit-for-bit.) -/
def spos (sr : Nat) (t : SMPTETime) : Nat :=
  (⌊(sposFrames t : ℚ) * ((sr : ℚ) / (fps : ℚ))⌋).toNat

/-- Line 158: `const unsigned int wraparound = 86400 * j_samplerate / fps;`
`unsigned int` is 32-bit, so the product `86400 * j_samplerate` is reduced
mod 2^32 before the division. -/
def wraparound (sr : Nat) : Nat := (86400 * sr) % 2 ^ 32 / fps

/-- Line 206: `long int delta = (frame.off_start % wraparound) - spos;`
`frame.off_start` is the non-negative sample position at which the decoded
frame's audio started (derived from `monotonic_cnt`), so the C `%` is
ordinary modulo; the subtraction is 64-bit and never overflows for
reachable magnitudes, so the result is the exact integer difference. -/
def delta (sr : Nat) (off_start : Nat) (t : SMPTETime) : Int :=
  (off_start % wraparound sr : Int) - (spos sr t : Int)

/-- Modelled from the spec (for comparison in claim C5, not from the
source): the day-length wraparound period, "one day's worth of samples
(86400 seconds at the configured sample rate)". -/
def wraparoundSpec (sr : Nat) : Nat := 86400 * sr

/-- Modelled from the spec (for comparison in claim C5): `delta` with the
raw start-sample position reduced modulo the day-length period. -/
def deltaSpec (sr : Nat) (off_start : Nat) (t : SMPTETime) : Int :=
  (off_start % wraparoundSpec sr : Int) - (spos sr t : Int)

/-- Modelled from the spec (for comparison in claim C6): the expected
sample position `(frame_index_within_second + frame_rate * total_seconds)
* (sample_rate / frame_rate)` as an exact rational. -/
def expectedSpec (sr : Nat) (t : SMPTETime) : ℚ :=
  ((t.frame : ℚ) + (fps : ℚ) * ((t.hours : ℚ) * 3600 + (t.mins : ℚ) * 60 + (t.secs : ℚ)))
    * ((sr : ℚ) / (fps : ℚ))

/-! ## Encode-ahead write loop (`main_loop`, lines 173-190)

The producer-side ring-buffer state is tracked at byte granularity:
`jack_ringbuffer_write (rb, &val, 4)` writes `min (write_space, 4)` bytes
and returns the number written; the source logs
`"ERROR: ringbuffer overflow"` whenever that is `!= 4` (lines 184-186). -/

/-- Producer-side view of the ring buffer: usable capacity and currently
stored bytes. -/
structure RBBytes where
  cap : Nat
  used : Nat
  deriving Repr, DecidableEq

/-- `jack_ringbuffer_write` of one 4-byte sample: writes as many of the 4
bytes as fit, returns the byte count written. -/
def writeSample (rb : RBBytes) : RBBytes × Nat :=
  let w := min (rb.cap - rb.used) sampleBytes
  ({ rb with used := rb.used + w }, w)

/-- The overflow diagnostic text (line 185). -/
def overflowMsg : String := "ERROR: ringbuffer overflow"

/-- The inner emission loop of the encode-ahead generator (lines 179-187):
write each encoded sample of the frame buffer in turn; whenever a write
returns fewer than 4 bytes, append the overflow diagnostic to the log and
keep going.  The estimator state is threaded through untouched, exactly as
in the source, where the loop body never mentions `avg_delta`, `avg_count`
or `last_signal`. -/
def writeFrame (vs : List ℚ) (rb : RBBytes) (log : List String) (est : EstState) :
    RBBytes × List String × EstState :=
  match vs with
  | [] => (rb, log, est)
  | _ :: rest =>
      let r := writeSample rb
      let log' := if r.2 ≠ sampleBytes then log ++ [overflowMsg] else log
      writeFrame rest r.1 log' est

/-! ## Helper lemmas -/

/-- Evaluating line 204's truncated multiplication: the rational floor model
of `spos` equals exact natural multiply-then-divide. -/
theorem spos_eq (sr : Nat) (t : SMPTETime) :
    spos sr t = sposFrames t * sr / fps := by
  unfold spos
  have h1 : (sposFrames t : ℚ) * ((sr : ℚ) / (fps : ℚ))
      = ((sposFrames t * sr : ℕ) : ℚ) / ((fps : ℕ) : ℚ) := by
    push_cast
    ring
  rw [h1, Rat.floor_natCast_div_natCast, ← Int.natCast_div, Int.toNat_natCast]

/-- Accumulation over a drained frame sequence whose deltas all lie in the
acceptance window: the sum and count add up. -/
theorem acceptSeq_sum (sr : Nat) (fs : List (Nat × Int)) (st : EstState)
    (h : ∀ p ∈ fs, 0 < p.2 ∧ p.2 < (sr : Int)) :
    (acceptSeq sr fs st).avg_delta = st.avg_delta + (fs.map Prod.snd).sum ∧
    (acceptSeq sr fs st).avg_count = st.avg_count + fs.length := by
  induction fs generalizing st with
  | nil => simp [acceptSeq]
  | cons p rest ih =>
      have hp := h p (List.mem_cons_self p rest)
      have hrest : ∀ q ∈ rest, 0 < q.2 ∧ q.2 < (sr : Int) :=
        fun q hq => h q (List.mem_cons_of_mem p hq)
      have hstep : acceptFrame sr p.1 p.2 st =
          { avg_delta := st.avg_delta + p.2, avg_count := st.avg_count + 1,
            last_signal := p.1 } := by
        simp [acceptFrame, hp.1, hp.2]
      have := ih { avg_delta := st.avg_delta + p.2, avg_count := st.avg_count + 1,
                   last_signal := p.1 } hrest
      constructor
      · show (acceptSeq sr rest (acceptFrame sr p.1 p.2 st)).avg_delta = _
        rw [hstep, this.1]
        simp
        ring
      · show (acceptSeq sr rest (acceptFrame sr p.1 p.2 st)).avg_count = _
        rw [hstep, this.2]
        simp
        omega

/-! ## Claims -/

/-- C1 counterexample: a frame with `delta = 0` lies inside the claim's
acceptance window `0 ≤ delta < sample_rate`, yet the code (line 208:
`delta > 0 && delta < j_samplerate`) leaves the estimator unchanged, in
particular it does not perform the accept update. -/
theorem C1_counterexample :
    ((0 : Int) ≤ 0 ∧ (0 : Int) < 48000) ∧
    acceptFrame 48000 100 0 ⟨5, 2, 7⟩ = ⟨5, 2, 7⟩ ∧
    acceptFrame 48000 100 0 ⟨5, 2, 7⟩ ≠ ⟨5 + 0, 2 + 1, 100⟩ := by
  refine ⟨by decide, ?_, ?_⟩ <;> decide

/-- C1 (amended): a drained frame's delta is accepted into the estimator
(sum incremented by delta, count incremented by one, last-accept time set
to the drain-loop's `now` snapshot) if and only if `0 < delta <
sample_rate`; any delta outside that open window leaves the estimator
state unchanged. -/
theorem C1_accept_iff (sr now : Nat) (d : Int) (st : EstState) :
    (0 < d ∧ d < (sr : Int) →
      acceptFrame sr now d st =
        { avg_delta := st.avg_delta + d, avg_count := st.avg_count + 1,
          last_signal := now }) ∧
    (¬ (0 < d ∧ d < (sr : Int)) → acceptFrame sr now d st = st) := by
  constructor <;> intro h <;> simp [acceptFrame, h]

/-- Witness for C1: a delta of 240 at 48 kHz is accepted; a delta of −5 is
discarded with the state unchanged. -/
theorem C1_accept_iff_witness :
    acceptFrame 48000 100 240 ⟨0, 0, 0⟩ = ⟨240, 1, 100⟩ ∧
    acceptFrame 48000 100 (-5) ⟨0, 0, 0⟩ = ⟨0, 0, 0⟩ :=
  ⟨(C1_accept_iff 48000 100 240 ⟨0, 0, 0⟩).1 (by decide),
   (C1_accept_iff 48000 100 (-5) ⟨0, 0, 0⟩).2 (by decide)⟩

/-- C2: starting from a reset estimator, after a nonempty sequence of
accepted frames (each delta in the acceptance window) the value reported
at the next periodic tick — provided the tick's silence check does not
fire — is the running sum divided by the running count, i.e. the
arithmetic mean of the accepted deltas. -/
theorem C2_report_mean (sr : Nat) (fs : List (Nat × Int)) (ls now1 : Nat)
    (h : ∀ p ∈ fs, 0 < p.2 ∧ p.2 < (sr : Int)) (hne : fs ≠ [])
    (hsil : now1 - (acceptSeq sr fs ⟨0, 0, ls⟩).last_signal ≤ 3 * sr) :
    (tick sr now1 (acceptSeq sr fs ⟨0, 0, ls⟩)).2 =
      some (((fs.map Prod.snd).sum : ℚ) / (fs.length : ℚ)) := by
  have hsum := acceptSeq_sum sr fs ⟨0, 0, ls⟩ h
  have hcnt : (acceptSeq sr fs ⟨0, 0, ls⟩).avg_count = fs.length := by
    rw [hsum.2]
    simp
  have hpos : 0 < fs.length := List.length_pos.mpr hne
  unfold tick
  have hnot : ¬ now1 - (acceptSeq sr fs ⟨0, 0, ls⟩).last_signal > 3 * sr := by
    omega
  simp only [hnot, if_false]
  have : (acceptSeq sr fs ⟨0, 0, ls⟩).avg_count > 0 := by omega
  simp only [this, if_true]
  rw [hsum.1, hcnt]
  norm_num

/-- Witness for C2: two frames with deltas 240 and 242 yield the report
`(240 + 242) / 2 = 241`. -/
theorem C2_report_mean_witness :
    (tick 48000 50000 (acceptSeq 48000 [(10, 240), (20, 242)] ⟨0, 0, 0⟩)).2 =
      some 241 := by
  have h := C2_report_mean 48000 [(10, 240), (20, 242)] 0 50000
    (by decide) (by decide) (by decide)
  rw [h]
  norm_num

/-- C3: at a periodic report tick, if the time elapsed since the last
accepted sample exceeds the 3-second silence window (`3 * sample_rate`
samples of the monotonic counter), the estimator's `(sum, count)` is reset
to `(0, 0)` before reporting and the emitted report is the "no recent
signal" line (`none`), regardless of how large the prior accepted count
was. -/
theorem C3_silence_reset (sr now lnt : Nat) (st : EstState)
    (htick : now > lnt + notify_dt sr)
    (hsil : now - st.last_signal > 3 * sr) :
    notifyStep sr now lnt st =
      (now, { st with avg_delta := 0, avg_count := 0 }, some none) := by
  unfold notifyStep tick
  simp [htick, hsil]

/-- Witness for C3: with a large accumulated count (500 accepted frames)
and 200000 samples of silence at 48 kHz, the tick resets the estimator and
reports "no recent signal". -/
theorem C3_silence_reset_witness :
    notifyStep 48000 200000 0 ⟨999999, 500, 0⟩ =
      (200000, ⟨0, 0, 0⟩, some none) :=
  C3_silence_reset 48000 200000 0 ⟨999999, 500, 0⟩ (by decide) (by decide)

/-- C4 counterexample: with the ring buffer holding exactly `n = 1` sample
(read space equal to, not greater than, `sizeof (sample) * n`), the
callback emits silence rather than the buffered sample — the source's
line-64 comparison is strict `>` — so "at least n samples readable implies
the output is the next n samples" is false; the buffered sample is also
not consumed. -/
theorem C4_counterexample :
    (process 1 [] ⟨1, 0, [(1 : ℚ)], []⟩).2 = [0] ∧
    (process 1 [] ⟨1, 0, [(1 : ℚ)], []⟩).2 ≠ [(1 : ℚ)] ∧
    (process 1 [] ⟨1, 0, [(1 : ℚ)], []⟩).1.rb = [(1 : ℚ)] := by
  refine ⟨?_, ?_, ?_⟩ <;> decide

/-- C4 (amended): in a RUNNING callback with block size `n`, if the ring
buffer holds strictly more than `n` samples (read space strictly greater
than `sizeof (sample) * n` bytes) the output block is exactly the next `n`
samples read from the buffer; otherwise (`≤ n` samples readable, which
includes exactly `n`) the output is a block of exactly `n` zero samples
and nothing is consumed from the buffer.  In both cases the output block
has length exactly `n`. -/
theorem C4_output_exact (n : Nat) (input : List ℚ) (s : ProcState)
    (hrun : s.active = 1) :
    (s.rb.length > n →
      (process n input s).2 = s.rb.take n ∧
      (process n input s).1.rb = s.rb.drop n) ∧
    (s.rb.length ≤ n →
      (process n input s).2 = List.replicate n 0 ∧
      (process n input s).1.rb = s.rb) ∧
    (process n input s).2.length = n := by
  have hcond : (readSpace s.rb > sampleBytes * n) ↔ s.rb.length > n := by
    unfold readSpace sampleBytes
    omega
  refine ⟨fun hgt => ?_, fun hle => ?_, ?_⟩
  · have h : readSpace s.rb > sampleBytes * n := hcond.mpr hgt
    simp [process, hrun, h]
  · have h : ¬ readSpace s.rb > sampleBytes * n := by
      rw [hcond]
      omega
    simp [process, hrun, h]
  · by_cases h : readSpace s.rb > sampleBytes * n
    · simp [process, hrun, h, List.length_take]
      omega
    · simp [process, hrun, h]

/-- Witness for C4: with 3 samples buffered and block size 2, the output
is the first two samples and the third remains; with 2 samples buffered
and block size 2, the output is two zeros and the buffer is untouched. -/
theorem C4_output_exact_witness :
    ((process 2 [] ⟨1, 0, [(7 : ℚ), 8, 9], []⟩).2 = [(7 : ℚ), 8] ∧
     (process 2 [] ⟨1, 0, [(7 : ℚ), 8, 9], []⟩).1.rb = [(9 : ℚ)]) ∧
    ((process 2 [] ⟨1, 0, [(7 : ℚ), 8], []⟩).2 = [(0 : ℚ), 0] ∧
     (process 2 [] ⟨1, 0, [(7 : ℚ), 8], []⟩).1.rb = [(7 : ℚ), 8]) := by
  have h1 := C4_output_exact 2 [] ⟨1, 0, [(7 : ℚ), 8, 9], []⟩ rfl
  have h2 := C4_output_exact 2 [] ⟨1, 0, [(7 : ℚ), 8], []⟩ rfl
  exact ⟨h1.1 (by decide), ⟨(h2.2.1 (by decide)).1, (h2.2.1 (by decide)).2⟩⟩

/-- C5: the code's wraparound period (line 158, `86400 * j_samplerate /
fps`, commented `// 24h`) is NOT one day's worth of samples: at 48 kHz it
is 165888000 samples (57.6 minutes), not 86400 s × 48000 = 4147200000
samples.  Concretely, a frame decoded at timecode 00:57:36:00 whose audio
started at sample 165888240 (a genuine 240-sample round-trip delay) gets
`delta = 240 - 165888000` from the code — a hugely negative value that the
acceptance window discards — whereas reduction by the day-length period,
as the code's own `// 24h` comment and the spec intend, gives 240. -/
theorem C5_wraparound_divergence :
    wraparound 48000 = 165888000 ∧
    wraparoundSpec 48000 = 4147200000 ∧
    wraparound 48000 ≠ wraparoundSpec 48000 ∧
    delta 48000 165888240 ⟨0, 57, 36, 0⟩ = 240 - 165888000 ∧
    deltaSpec 48000 165888240 ⟨0, 57, 36, 0⟩ = 240 := by
  have hs : spos 48000 ⟨0, 57, 36, 0⟩ = 165888000 := by
    rw [spos_eq]
    decide
  refine ⟨by decide, by decide, by decide, ?_, ?_⟩
  · unfold delta
    rw [hs]
    decide
  · unfold deltaSpec
    rw [hs]
    decide

/-- C6: when the frame rate divides the sample rate (e.g. the default
48000 = 25 × 1920, where the C double arithmetic of line 204 is exact),
the expected sample position computed by the code equals
`(frame + fps * (hours*3600 + mins*60 + secs)) * (sample_rate / fps)`. -/
theorem C6_expected_formula (sr : Nat) (t : SMPTETime) (h : fps ∣ sr) :
    (spos sr t : ℚ) = expectedSpec sr t := by
  obtain ⟨k, hk⟩ := h
  subst hk
  have h25 : (0 : ℕ) < fps := by decide
  have hnat : spos (fps * k) t = sposFrames t * k := by
    rw [spos_eq, show sposFrames t * (fps * k) = fps * (sposFrames t * k) by ring]
    exact Nat.mul_div_cancel_left _ h25
  rw [hnat]
  unfold expectedSpec sposFrames fps
  push_cast
  field_simp

/-- Witness for C6 at the session default sample rate 48000 and the
decoded time 01:02:03 frame 4. -/
theorem C6_expected_formula_witness :
    (spos 48000 ⟨1, 2, 3, 4⟩ : ℚ) = expectedSpec 48000 ⟨1, 2, 3, 4⟩ :=
  C6_expected_formula 48000 ⟨1, 2, 3, 4⟩ (by decide)

/-- The callback never decreases the monotonic counter. -/
theorem monotonic_le_process (n : Nat) (input : List ℚ) (s : ProcState) :
    s.monotonic_cnt ≤ (process n input s).1.monotonic_cnt := by
  unfold process
  split_ifs <;> simp

/-- No session event decreases the monotonic counter. -/
theorem monotonic_le_step (s : ProcState) (e : Event) :
    s.monotonic_cnt ≤ (step s e).1.monotonic_cnt := by
  cases e with
  | callback n input => exact monotonic_le_process n input s
  | sigint => exact le_refl _
  | jackShutdown => exact le_refl _

/-- Along any session trace the monotonic counter never decreases. -/
theorem monotonic_le_run (evs : List Event) (s : ProcState) :
    s.monotonic_cnt ≤ (run s evs).1.monotonic_cnt := by
  induction evs generalizing s with
  | nil => exact le_refl _
  | cons e es ih =>
      calc s.monotonic_cnt ≤ (step s e).1.monotonic_cnt := monotonic_le_step s e
        _ ≤ (run (step s e).1 es).1.monotonic_cnt := ih _
        _ = (run s (e :: es)).1.monotonic_cnt := rfl

/-- C7: in every callback invocation the monotonic counter increases by
exactly the block size when the ring-buffer read succeeds and is unchanged
otherwise; it never decreases in a single invocation, and it never
decreases across any session trace (it is never reset). -/
theorem C7_monotonic_counter (n : Nat) (input : List ℚ) (s : ProcState)
    (evs : List Event) :
    ((process n input s).1.monotonic_cnt =
      if readSucceeds s n then s.monotonic_cnt + n else s.monotonic_cnt) ∧
    s.monotonic_cnt ≤ (process n input s).1.monotonic_cnt ∧
    s.monotonic_cnt ≤ (run s evs).1.monotonic_cnt := by
  refine ⟨?_, monotonic_le_process n input s, monotonic_le_run evs s⟩
  unfold process readSucceeds
  by_cases h1 : s.active = 1
  · by_cases h2 : readSpace s.rb > sampleBytes * n <;> simp [h1, h2]
  · simp [h1]

/-- A callback in a non-RUNNING state performs no work at all: the state
(decoder feeds, ring buffer, counter, everything) is unchanged and the
output is an all-zero block of the requested size (lines 57-60). -/
theorem process_not_running (n : Nat) (input : List ℚ) (s : ProcState)
    (h : s.active ≠ 1) : process n input s = (s, List.replicate n 0) := by
  unfold process
  simp [h]

/-- Once `active = 2`, any single session event leaves it at 2 and any
callback output it produces is an all-zero block. -/
theorem step_active2 (s : ProcState) (e : Event) (h : s.active = 2) :
    (step s e).1.active = 2 ∧
    ∀ o, (step s e).2 = some o → ∃ m, o = List.replicate m (0 : ℚ) := by
  cases e with
  | callback n input =>
      have hns : s.active ≠ 1 := by omega
      have hp := process_not_running n input s hns
      constructor
      · show (process n input s).1.active = 2
        rw [hp]
        exact h
      · intro o ho
        have : (step s (Event.callback n input)).2 = some (process n input s).2 := rfl
        rw [this, hp] at ho
        exact ⟨n, (Option.some.injEq _ _ ▸ ho).symm⟩
  | sigint => exact ⟨rfl, fun o ho => by simp [step] at ho⟩
  | jackShutdown => exact ⟨rfl, fun o ho => by simp [step] at ho⟩

/-- Once `active = 2`, every subsequent trace keeps it at 2 and all
callback outputs are all-zero blocks. -/
theorem run_active2 (evs : List Event) (s : ProcState) (h : s.active = 2) :
    (run s evs).1.active = 2 ∧
    ∀ o ∈ (run s evs).2, ∃ m, o = List.replicate m (0 : ℚ) := by
  induction evs generalizing s with
  | nil => exact ⟨h, by simp [run]⟩
  | cons e es ih =>
      have hs := step_active2 s e h
      have hr := ih (step s e).1 hs.1
      refine ⟨hr.1, ?_⟩
      intro o ho
      have hrun : (run s (e :: es)).2 =
          (match (step s e).2 with | some o => [o] | none => []) ++
            (run (step s e).1 es).2 := rfl
      rw [hrun] at ho
      rcases List.mem_append.mp ho with hin | hin
      · cases hstep : (step s e).2 with
        | none => rw [hstep] at hin; simp at hin
        | some o2 =>
            rw [hstep] at hin
            have ho2 : o = o2 := by simpa using hin
            rw [ho2]
            exact hs.2 o2 hstep
      · exact hr.2 o hin

/-- C8: a callback invocation in a non-RUNNING state (STARTING or
SHUTDOWN) emits an all-zero block of the requested size and performs no
processing — the decoder is not fed, the ring buffer is untouched and the
monotonic counter is unchanged (the whole state is unchanged); moreover
SHUTDOWN is absorbing among post-startup session events (callbacks,
SIGINT, jackd shutdown), so once `active = 2` every subsequent callback
output is silence. -/
theorem C8_shutdown_silence (n : Nat) (input : List ℚ) (s : ProcState)
    (hns : s.active ≠ 1) :
    process n input s = (s, List.replicate n 0) ∧
    (s.active = 2 → ∀ evs : List Event,
      (run s evs).1.active = 2 ∧
      ∀ o ∈ (run s evs).2, ∃ m, o = List.replicate m (0 : ℚ)) :=
  ⟨process_not_running n input s hns, fun h2 evs => run_active2 evs s h2⟩

/-- Witness for C8: a STARTING-state callback changes nothing and outputs
two zero samples; after SHUTDOWN a trace with a further callback and a
SIGINT still ends with `active = 2`. -/
theorem C8_shutdown_silence_witness :
    process 2 [(9 : ℚ)] ⟨0, 5, [(3 : ℚ)], []⟩ = (⟨0, 5, [(3 : ℚ)], []⟩, [0, 0]) ∧
    (run ⟨2, 5, [(3 : ℚ)], []⟩ [Event.callback 1 [(7 : ℚ)], Event.sigint]).1.active = 2 := by
  have h1 := C8_shutdown_silence 2 [(9 : ℚ)] ⟨0, 5, [(3 : ℚ)], []⟩ (by decide)
  have h2 := C8_shutdown_silence 1 [(7 : ℚ)] ⟨2, 5, [(3 : ℚ)], []⟩ (by decide)
  exact ⟨h1.1, ((h2.2 rfl) [Event.callback 1 [(7 : ℚ)], Event.sigint]).1⟩

/-- The encode-ahead write loop never touches the estimator state. -/
theorem writeFrame_est (vs : List ℚ) (rb : RBBytes) (log : List String)
    (est : EstState) : (writeFrame vs rb log est).2.2 = est := by
  induction vs generalizing rb log with
  | nil => rfl
  | cons v rest ih => exact ih _ _

/-- The encode-ahead write loop only appends to the diagnostic log. -/
theorem writeFrame_log_mono (vs : List ℚ) (rb : RBBytes) (log : List String)
    (est : EstState) (x : String) (hx : x ∈ log) :
    x ∈ (writeFrame vs rb log est).2.1 := by
  induction vs generalizing rb log with
  | nil => exact hx
  | cons v rest ih =>
      show x ∈ (writeFrame rest (writeSample rb).1
        (if (writeSample rb).2 ≠ sampleBytes then log ++ [overflowMsg] else log)
        est).2.1
      by_cases hw : (writeSample rb).2 ≠ sampleBytes
      · rw [if_pos hw]
        exact ih _ _ (List.mem_append_left _ hx)
      · rw [if_neg hw]
        exact ih _ _ hx

/-- The write loop processes every sample of the frame: the stored byte
count ends at `min capacity (used + 4 * number of samples)`, failures
notwithstanding — i.e. the loop keeps operating past a failed write. -/
theorem writeFrame_used (vs : List ℚ) (rb : RBBytes) (log : List String)
    (est : EstState) (hle : rb.used ≤ rb.cap) :
    (writeFrame vs rb log est).1.used =
      min rb.cap (rb.used + sampleBytes * vs.length) := by
  induction vs generalizing rb log with
  | nil =>
      show rb.used = _
      simp only [List.length_nil]
      omega
  | cons v rest ih =>
      show (writeFrame rest (writeSample rb).1
        (if (writeSample rb).2 ≠ sampleBytes then log ++ [overflowMsg] else log)
        est).1.used = _
      have hused : (writeSample rb).1.used =
          rb.used + min (rb.cap - rb.used) sampleBytes := rfl
      have hcap : (writeSample rb).1.cap = rb.cap := rfl
      have hle' : (writeSample rb).1.used ≤ (writeSample rb).1.cap := by
        rw [hused, hcap]
        unfold sampleBytes
        omega
      rw [ih (writeSample rb).1 _ hle', hused, hcap]
      simp only [List.length_cons]
      unfold sampleBytes
      omega

/-- If the frame's samples do not all fit, some write fails and the
overflow diagnostic ends up in the log. -/
theorem writeFrame_overflow (vs : List ℚ) (rb : RBBytes) (log : List String)
    (est : EstState) (hle : rb.used ≤ rb.cap)
    (hov : rb.cap < rb.used + sampleBytes * vs.length) :
    overflowMsg ∈ (writeFrame vs rb log est).2.1 := by
  induction vs generalizing rb log with
  | nil =>
      simp only [List.length_nil] at hov
      omega
  | cons v rest ih =>
      obtain ⟨cap, used⟩ := rb
      show overflowMsg ∈ (writeFrame rest (writeSample ⟨cap, used⟩).1
        (if (writeSample ⟨cap, used⟩).2 ≠ sampleBytes then log ++ [overflowMsg]
         else log) est).2.1
      have hws1 : (writeSample ⟨cap, used⟩).1 =
          ⟨cap, used + min (cap - used) sampleBytes⟩ := rfl
      have hws2 : (writeSample ⟨cap, used⟩).2 = min (cap - used) sampleBytes := rfl
      simp only [List.length_cons] at hov
      by_cases h4 : sampleBytes ≤ cap - used
      · have hwne : ¬ (writeSample ⟨cap, used⟩).2 ≠ sampleBytes := by
          rw [hws2]
          omega
        rw [if_neg hwne, hws1]
        refine ih ⟨cap, used + min (cap - used) sampleBytes⟩ log ?_ ?_
        · show used + min (cap - used) sampleBytes ≤ cap
          simp only [sampleBytes] at h4 ⊢
          omega
        · show cap < used + min (cap - used) sampleBytes + sampleBytes * rest.length
          simp only [sampleBytes] at h4 hov ⊢
          omega
      · have hwne : (writeSample ⟨cap, used⟩).2 ≠ sampleBytes := by
          rw [hws2]
          simp only [sampleBytes] at h4 ⊢
          omega
        rw [if_pos hwne, hws1]
        exact writeFrame_log_mono _ _ _ _ _
          (List.mem_append_right _ (List.mem_singleton.mpr rfl))

/-- C9: the encode-ahead write loop absorbs ring-buffer overflow: the
estimator state is untouched by the loop (in particular by any failed
write), the loop keeps running through every sample of the frame (the
buffer ends at `min capacity (used + 4·samples)` rather than the loop
terminating), and whenever the frame does not fit the overflow diagnostic
`"ERROR: ringbuffer overflow"` is emitted to the log. -/
theorem C9_overflow_nonfatal (vs : List ℚ) (rb : RBBytes) (log : List String)
    (est : EstState) (hle : rb.used ≤ rb.cap) :
    (writeFrame vs rb log est).2.2 = est ∧
    (writeFrame vs rb log est).1.used =
      min rb.cap (rb.used + sampleBytes * vs.length) ∧
    (rb.cap < rb.used + sampleBytes * vs.length →
      overflowMsg ∈ (writeFrame vs rb log est).2.1) :=
  ⟨writeFrame_est vs rb log est, writeFrame_used vs rb log est hle,
   fun hov => writeFrame_overflow vs rb log est hle hov⟩

/-- Witness for C9: two samples (8 bytes) into a 4-byte-capacity buffer —
the estimator survives unchanged, the buffer fills to capacity, and the
overflow diagnostic is logged. -/
theorem C9_overflow_nonfatal_witness :
    (writeFrame [(1 : ℚ), 2] ⟨4, 0⟩ [] ⟨1, 2, 3⟩).2.2 = ⟨1, 2, 3⟩ ∧
    (writeFrame [(1 : ℚ), 2] ⟨4, 0⟩ [] ⟨1, 2, 3⟩).1.used = 4 ∧
    overflowMsg ∈ (writeFrame [(1 : ℚ), 2] ⟨4, 0⟩ [] ⟨1, 2, 3⟩).2.1 := by
  have h := C9_overflow_nonfatal [(1 : ℚ), 2] ⟨4, 0⟩ [] ⟨1, 2, 3⟩ (by decide)
  refine ⟨h.1, ?_, h.2.2 (by decide)⟩
  rw [h.2.1]
  decide

/-- C10: in a RUNNING callback the input block is handed to the decoder
annotated with the monotonic counter value as it stood at entry, before
any increment performed in the same invocation; and on an underrun cycle
(read space not greater than the block's byte size) the counter does not
advance while the decoder still consumed the block at that stalled
position. -/
theorem C10_decoder_pre_counter (n : Nat) (input : List ℚ) (s : ProcState)
    (hrun : s.active = 1) :
    (process n input s).1.decoderFeeds =
      s.decoderFeeds ++ [(input, s.monotonic_cnt)] ∧
    (¬ readSpace s.rb > sampleBytes * n →
      (process n input s).1.monotonic_cnt = s.monotonic_cnt) := by
  unfold process
  by_cases h : readSpace s.rb > sampleBytes * n <;> simp [hrun, h]

/-- Witness for C10: an underrun invocation (empty ring buffer) feeds the
decoder the block annotated with the entry counter 42 and leaves the
counter at 42. -/
theorem C10_decoder_pre_counter_witness :
    (process 1 [(5 : ℚ)] ⟨1, 42, [], []⟩).1.decoderFeeds = [([(5 : ℚ)], 42)] ∧
    (process 1 [(5 : ℚ)] ⟨1, 42, [], []⟩).1.monotonic_cnt = 42 := by
  have h := C10_decoder_pre_counter 1 [(5 : ℚ)] ⟨1, 42, [], []⟩ rfl
  exact ⟨h.1, h.2 (by decide)⟩
